import Mathlib

/-!
Verification of the level-inference, palette and cluster-diagram logic of
`src/jetstream_hugo/plots.py`.

The Python functions are shallowly embedded as executable Lean definitions.
Numeric values are rationals. External collaborators (the quantile routine
`np.nanquantile`, the tick locator `MaxNLocator.tick_values`, and the colormap
sampling function) are taken as explicit function parameters, since the spec
treats them as external dependencies of this module.
-/

/-- A gridded field as seen by `create_levels`: a dtype tag (boolean or not)
and its flattened numeric values. -/
structure FieldData where
  isBool : Bool
  values : List ℚ
deriving Repr, DecidableEq

/-- Modelled from the spec: `infer_direction` is imported from
`jetstream_hugo.definitions`, which is not among the available sources.
The spec describes it as the sign pattern of the extreme quantiles of the
data: all-non-negative gives positive-only (1), all-non-positive gives
negative-only (-1), mixed gives symmetric (0). -/
def infer_direction (to_plot : List FieldData) : Int :=
  let vals := (to_plot.map FieldData.values).flatten
  if vals.all (fun v => 0 ≤ v) then 1
  else if vals.all (fun v => v ≤ 0) then -1
  else 0

/-- The dictionary `{-1: "min", 0: "both", 1: "max"}` from `create_levels`. -/
def extendOf (direction : Int) : String :=
  if direction = -1 then "min" else if direction = 0 then "both" else "max"

/-- The non-boolean part of `create_levels` (lines 304-326 of `plots.py`).
`quant to_plot q` models `np.nanquantile(to_plot, q=[1 - q, q])`;
`tick nlev symmetric low high` models
`MaxNLocator(nlev, symmetric=symmetric).tick_values(low, high)`.
The `levels` argument is `None`, an integer count, or an explicit sequence.
`none` is returned where the Python code raises (`np.delete` on an empty
array). -/
def create_levels_nonbool (quant : List FieldData → ℚ → ℚ × ℚ)
    (tick : Nat → Bool → ℚ → ℚ → List ℚ)
    (to_plot : List FieldData) (levels : Option (Nat ⊕ List ℚ)) (q : ℚ) :
    Option (List ℚ × List ℚ × String × Int) :=
  let direction := infer_direction to_plot
  let ext := if q < 1 then extendOf direction else "neither"
  match levels with
  | some (Sum.inr seq) =>
      if direction = 0 then
        if seq.length = 0 then none
        else some (seq, seq.eraseIdx (seq.length / 2), ext, direction)
      else some (seq, seq, ext, direction)
  | _ =>
      -- `levels = 7 if direction is None else 4`: the direction is an
      -- integer, never `None`, so the default count is always 4.
      let nlev := match levels with
        | some (Sum.inl n) => n
        | _ => 4
      let qb := quant to_plot q
      let lowbound := if direction = 1 then 0 else qb.1
      let highbound := if direction = -1 then 0 else qb.2
      let levelsc := tick nlev (direction == 0) lowbound highbound
      if direction = 0 then
        if levelsc.length = 0 then none
        else some (levelsc, levelsc.eraseIdx (levelsc.length / 2), ext, direction)
      else some (levelsc, levelsc, ext, direction)

/-- `create_levels` (lines 299-326 of `plots.py`). The boolean short-circuit
inspects the dtype of the first field only; with an empty input list the
Python code raises an IndexError, modelled as `none`. -/
def create_levels (quant : List FieldData → ℚ → ℚ × ℚ)
    (tick : Nat → Bool → ℚ → ℚ → List ℚ)
    (to_plot : List FieldData) (levels : Option (Nat ⊕ List ℚ)) (q : ℚ) :
    Option (List ℚ × List ℚ × String × Int) :=
  match to_plot with
  | [] => none
  | f0 :: _ =>
      if f0.isBool then some ([0, 1/2, 1], [0, 1/2, 1], "neither", 1)
      else create_levels_nonbool quant tick to_plot levels q

/-- The first argument of `doubleit`: a string, a list, or `None`. -/
inductive Thing (α : Type) where
  | single : α → Thing α
  | many : List α → Thing α
  | nothing : Thing α
deriving Repr, DecidableEq

/-- `doubleit` (lines 329-343 of `plots.py`). With a list argument of fewer
than two elements the indexing `thing[0]` or `thing[1]` raises, modelled as
`none`; `int(length / 2)` is floor division for the non-negative lengths
used here. -/
def doubleit {α : Type} (thing : Thing α) (length : Nat) (default : α) :
    Option (List α) :=
  match thing with
  | .single s => some (List.replicate length s)
  | .many [a, b, c] =>
      some (List.replicate (length / 2) a ++ List.replicate (length % 2) b ++
        List.replicate (length / 2) c)
  | .many (a :: b :: _) =>
      some (List.replicate (length / 2) a ++ List.replicate (length % 2) default ++
        List.replicate (length / 2) b)
  | .many _ => none
  | .nothing => some (List.replicate length default)

/-- Placeholder collaborator functions used to instantiate the abstract
quantile and tick-locator parameters on concrete inputs. -/
def quant0 : List FieldData → ℚ → ℚ × ℚ := fun _ _ => (0, 0)

/-- Placeholder tick locator returning a fixed symmetric level sequence. -/
def tick0 : Nat → Bool → ℚ → ℚ → List ℚ := fun _ _ _ _ => [-2, -1, 0, 1, 2]


/-- An RGBA color with rational channels. -/
structure RGBA where
  r : ℚ
  g : ℚ
  b : ℚ
  a : ℚ
deriving Repr, DecidableEq

/-- A continuous colormap: its resolution (`cmap.N` in matplotlib) and its
sampling function on [0, 1]. -/
structure Cmap where
  N : Nat
  sample : ℚ → RGBA

/-- `np.linspace(0, 1, n)`: the `n` sample positions. Only their count
matters to the claims; a single sample sits at 0. -/
def linspace01 (n : Nat) : List ℚ :=
  if n ≤ 1 then List.replicate n 0
  else (List.range n).map (fun i => ((i : ℕ) : ℚ) / ((n : ℚ) - 1))

/-- Normalization of one Python slice bound: negative values count from
the end, and the result is clamped to [0, len]. -/
def pyBound (len : Nat) (i : Int) : Nat :=
  min (if i < 0 then i + len else i).toNat len

/-- Python slice assignment `colorlist[lo:hi, -1] = v`: set the alpha
channel of the entries whose index falls in the normalized range
[lo, hi). -/
def setAlphaSlice (cl : List RGBA) (lo hi : Int) (v : ℚ) : List RGBA :=
  (List.range cl.length).zipWith
    (fun i c => if pyBound cl.length lo ≤ i ∧ i < pyBound cl.length hi
      then { c with a := v } else c) cl

/-- `make_transparent` (lines 218-241 of `plots.py`). The colormap is
given directly (the string lookup `mpl.colormaps[cmap]` resolves names
outside this model); `nlev = None` defaults to `cmap.N`; `midpoint` is
`int(np.ceil(nlev / 2))`. The slice assignments of each branch are
applied in source order. -/
def make_transparent (cmap : Cmap) (nlev : Option Nat) (alpha_others : ℚ)
    (n_transparent : Nat) (direction : Int) : List RGBA :=
  let nl := nlev.getD cmap.N
  let colorlist :=
    (linspace01 (nl + (if direction = 0 then 1 else 0))).map cmap.sample
  if direction = 0 then
    let midpoint : Nat := (nl + 1) / 2
    let c1 := setAlphaSlice colorlist ((midpoint : Int) - n_transparent + 1)
      ((midpoint : Int) + n_transparent) 0
    let c2 := setAlphaSlice c1 ((midpoint : Int) + n_transparent)
      c1.length alpha_others
    setAlphaSlice c2 0 ((midpoint : Int) - n_transparent + 1) alpha_others
  else if direction = 1 then
    let c1 := setAlphaSlice colorlist 0 n_transparent 0
    setAlphaSlice c1 n_transparent c1.length alpha_others
  else
    let c1 := setAlphaSlice colorlist (-(n_transparent : Int))
      colorlist.length 0
    setAlphaSlice c1 0 (-(n_transparent : Int)) alpha_others

/-- The alpha channel of entry i of a color list, when present. -/
def alphaAt (l : List RGBA) (i : Nat) : Option ℚ := l[i]?.map RGBA.a

/-- The offset sign pairs `product([-1, 0, 1], [-1, 0, 1])` of the tiling
loop of `cluster_on_fig`, in iteration order. -/
def sgns : List (ℚ × ℚ) :=
  [(-1, -1), (-1, 0), (-1, 1), (0, -1), (0, 0), (0, 1), (1, -1), (1, 0), (1, 1)]

/-- One replica position of the tiling loop:
`[coord[0] + sgnx * dx / 2.01, coord[1] + sgny * dy / 2.01]`. -/
def ptOff (dx dy : ℚ) (c : ℚ × ℚ) (s : ℚ × ℚ) : ℚ × ℚ :=
  (c.1 + s.1 * dx / (201 / 100), c.2 + s.2 * dy / (201 / 100))

/-- The mirror/tile step of `cluster_on_fig` (lines 782-790 of
`plots.py`): `dx = coords[self.nrow, 0] - coords[0, 0]` and
`dy = (coords[2, 1] - coords[0, 1]) / 2`; the loop iterates over the
original point/label pairs (the `zip` captures the arrays before any
append rebinds the names) and appends, for each original point, its nine
offset replicas and nine copies of its label. Out-of-range index accesses
raise in Python, modelled as `none`. -/
def cluster_tile (nrow : Nat) (coords : List (ℚ × ℚ)) (clu_labs : List Int) :
    Option (List (ℚ × ℚ) × List Int) :=
  match coords[nrow]?, coords[0]?, coords[2]? with
  | some cn, some c0, some c2v =>
      let dx := cn.1 - c0.1
      let dy := (c2v.2 - c0.2) / 2
      let pairs := coords.zip clu_labs
      some (coords ++ pairs.flatMap (fun p => sgns.map (ptOff dx dy p.1)),
        clu_labs ++ pairs.flatMap (fun p => List.replicate 9 p.2))
  | _, _, _ => none

/-- Edge color of a cluster patch: the matplotlib value "none", or a
concrete color. -/
inductive EdgeSpec (γ : Type) where
  | noEdge : EdgeSpec γ
  | colored : γ → EdgeSpec γ
deriving Repr, DecidableEq

/-- The style arguments handed to `PathPatch` by `cluster_on_fig`. -/
structure PatchStyle (γ : Type) where
  ls : String
  fc : String
  alpha : ℚ
  ec : EdgeSpec γ
  lw : ℚ
deriving Repr, DecidableEq

/-- Per-label styling of the patches drawn by `cluster_on_fig` (lines
795-822 of `plots.py`): label 0 yields the filled background patch
(line style "none", face color "black", alpha 0.2, no edge), every other
label a line-only patch (face color "none", alpha 1, edge in the color
assigned to the label, solid line style when the label is non-negative
and dashed otherwise); all patches use line width 6. -/
def cluster_patch_style {γ : Type} (lab : Int) (labColor : γ) :
    PatchStyle γ :=
  if lab = 0 then ⟨"none", "black", 1/5, EdgeSpec.noEdge, 6⟩
  else ⟨if 0 ≤ lab then "solid" else "dashed", "none", 1,
    EdgeSpec.colored labColor, 6⟩

/-- Boolean time selection `da.isel(time=mas)`: keep the time slices at
which the mask is true. The data array is a time-indexed list of
flattened spatial fields. -/
def isel_time (da : List (List ℚ)) (mas : List Bool) : List (List ℚ) :=
  ((da.zip mas).filter (fun p => p.2)).map Prod.fst

/-- Elementwise mean over the time dimension, `mean(dim=time_name)`. -/
def time_mean (rows : List (List ℚ)) : List ℚ :=
  (rows.foldr (fun r acc => List.zipWith (· + ·) r acc)
    (List.replicate (rows.headD []).length 0)).map
    (fun s => s / (rows.length : ℚ))

/-- The per-group test-data construction of `add_stippling` (lines
661-666 of `plots.py`): the mask columns are its transpose rows; an empty
column (fewer than 1 member) gets the placeholder
`da[:1].copy(data=np.zeros((1, *da.shape[1:])))`, one time slice of zeros
with the spatial shape of the data; other columns select their time
slices. -/
def stippling_to_test (da : List (List ℚ)) (mask : List (List Bool)) :
    List (List (List ℚ)) :=
  mask.transpose.map (fun mas =>
    if mas.countP (fun b => b) < 1 then
      [List.replicate (da.headD []).length 0]
    else isel_time da mas)

/-- The per-group mean-field construction of `add_any_contour_from_mask`
(lines 700-706 of `plots.py`): an empty column gets
`da[0].copy(data=np.zeros(da.shape[1:]))`, an all-zero field of the
spatial shape of the data; other columns get the time mean of their
selected slices. -/
def contour_to_plot (da : List (List ℚ)) (mask : List (List Bool)) :
    List (List ℚ) :=
  mask.transpose.map (fun mas =>
    if mas.countP (fun b => b) < 1 then
      List.replicate (da.headD []).length 0
    else time_mean (isel_time da mas))

/-- The three drawing paths of `add_any_contour_from_mask`. -/
inductive ContourKind where
  | contourf : ContourKind
  | contour : ContourKind
  | both : ContourKind
deriving Repr, DecidableEq

/-- The message of the final `raise ValueError` of
`add_any_contour_from_mask`; the f-string `{type=}` renders as `type=`
followed by the repr of the argument, wrapped in single-quote characters
(code 39). -/
def wrongTypeMsg (t : String) : String :=
  "Wrong type=" ++ String.mk [Char.ofNat 39] ++ t ++
    String.mk [Char.ofNat 39] ++
    ", choose among \"contourf\", \"contour\" or \"both\""

/-- The type dispatch of `add_any_contour_from_mask` (lines 692-730 of
`plots.py`): the per-group fields are built first, then the `type`
selector picks the drawing path; any other value raises a `ValueError`
naming the three allowed choices. -/
def add_any_contour_from_mask (da : List (List ℚ))
    (mask : List (List Bool)) (type : String) :
    Except String (ContourKind × List (List ℚ)) :=
  let to_plot := contour_to_plot da mask
  if type = "contourf" then Except.ok (ContourKind.contourf, to_plot)
  else if type = "contour" then Except.ok (ContourKind.contour, to_plot)
  else if type = "both" then Except.ok (ContourKind.both, to_plot)
  else Except.error (wrongTypeMsg type)

/-- Whether the first character list is an initial segment of the
second. -/
def pfxChars : List Char → List Char → Bool
  | [], _ => true
  | _ :: _, [] => false
  | a :: as, b :: bs => a == b && pfxChars as bs

/-- Whether the first character list occurs inside the second as a
contiguous run. -/
def hasInfChars (sub : List Char) : List Char → Bool
  | [] => pfxChars sub []
  | b :: bs => pfxChars sub (b :: bs) || hasInfChars sub bs

-- Structural description of every successful result of the non-boolean
-- path of `create_levels`: the extend policy, the direction component, and
-- the relation between the full and the fill level sequences.
theorem create_levels_nonbool_spec (quant : List FieldData → ℚ → ℚ × ℚ)
    (tick : Nat → Bool → ℚ → ℚ → List ℚ) (to_plot : List FieldData)
    (levels : Option (Nat ⊕ List ℚ)) (q : ℚ)
    (r : List ℚ × List ℚ × String × Int)
    (h : create_levels_nonbool quant tick to_plot levels q = some r) :
    r.2.2.1 = (if q < 1 then extendOf (infer_direction to_plot)
      else "neither") ∧
    r.2.2.2 = infer_direction to_plot ∧
    (infer_direction to_plot = 0 →
      r.1.length ≠ 0 ∧ r.2.1 = r.1.eraseIdx (r.1.length / 2)) ∧
    (infer_direction to_plot ≠ 0 → r.2.1 = r.1) := by
  rcases levels with _ | (n | seq)
  all_goals
    unfold create_levels_nonbool at h
    dsimp only at h
    generalize hd : infer_direction to_plot = d at h ⊢
    by_cases h0 : d = 0
    · subst h0
      norm_num at h
      obtain ⟨hlen, hr⟩ := h
      subst hr
      refine ⟨rfl, rfl, fun _ => ⟨?_, rfl⟩, fun hc => absurd rfl hc⟩
      simpa [List.length_eq_zero] using hlen
    · rw [if_neg h0] at h
      have hr := Option.some.inj h
      subst hr
      exact ⟨rfl, rfl, fun hc => absurd hc h0, fun _ => rfl⟩

/-- C1 counterexample: for a boolean input field, `create_levels` does not
return the mixed-symmetric direction flag 0; the tuple it actually returns
carries direction flag 1. -/
theorem create_levels_bool_direction_cex :
    create_levels quant0 tick0 [⟨true, [0, 1]⟩] none 0 ≠
      some ([0, 1/2, 1], [0, 1/2, 1], "neither", 0) := by
  simp [create_levels]

/-- C1 (amended): for every input list whose fields are all boolean, and
for every `q` and every `levels` argument, `create_levels` returns the
full level sequence [0, 1/2, 1], the fill sequence [0, 1/2, 1], extend
"neither", and direction flag 1 (not the mixed-symmetric flag 0). -/
theorem create_levels_bool_branch (quant : List FieldData → ℚ → ℚ × ℚ)
    (tick : Nat → Bool → ℚ → ℚ → List ℚ) (to_plot : List FieldData)
    (levels : Option (Nat ⊕ List ℚ)) (q : ℚ)
    (hne : to_plot ≠ []) (hb : ∀ f ∈ to_plot, f.isBool = true) :
    create_levels quant tick to_plot levels q =
      some ([0, 1/2, 1], [0, 1/2, 1], "neither", 1) := by
  match to_plot, hne with
  | f0 :: rest, _ =>
    have h0 : f0.isBool = true := hb f0 (by simp)
    simp [create_levels, h0]

/-- Witness for the amended C1 theorem at a concrete boolean input. -/
theorem create_levels_bool_branch_witness :
    create_levels quant0 tick0 [⟨true, [0, 1]⟩, ⟨true, [1]⟩]
        (some (Sum.inl 5)) 7 =
      some ([0, 1/2, 1], [0, 1/2, 1], "neither", 1) :=
  create_levels_bool_branch quant0 tick0 _ _ _ (by decide) (by decide)

/-- C5: `doubleit` on a 3-element override list [a, b, c] and target length
L returns a list of length exactly L: a repeated L / 2 times, then b
repeated L % 2 times, then c repeated L / 2 times. -/
theorem doubleit_three_spec {α : Type} (a b c : α) (L : Nat) (d : α) :
    doubleit (Thing.many [a, b, c]) L d =
      some (List.replicate (L / 2) a ++ List.replicate (L % 2) b ++
        List.replicate (L / 2) c) ∧
    (List.replicate (L / 2) a ++ List.replicate (L % 2) b ++
      List.replicate (L / 2) c).length = L := by
  refine ⟨rfl, ?_⟩
  simp only [List.length_append, List.length_replicate]
  omega

/-- C9: for non-boolean input and q = 1, whenever `create_levels` returns a
result, its extend policy is "neither", whatever the inferred direction. -/
theorem create_levels_q_one_extend (quant : List FieldData → ℚ → ℚ × ℚ)
    (tick : Nat → Bool → ℚ → ℚ → List ℚ) (f0 : FieldData)
    (rest : List FieldData) (levels : Option (Nat ⊕ List ℚ))
    (r : List ℚ × List ℚ × String × Int)
    (hb : f0.isBool = false)
    (h : create_levels quant tick (f0 :: rest) levels 1 = some r) :
    r.2.2.1 = "neither" := by
  have h' : create_levels_nonbool quant tick (f0 :: rest) levels 1 = some r := by
    rw [← h]
    simp [create_levels, hb]
  have hs := (create_levels_nonbool_spec quant tick _ levels 1 r h').1
  rw [if_neg (lt_irrefl (1 : ℚ))] at hs
  exact hs

/-- Witness for the C9 theorem at a concrete non-boolean input. -/
theorem create_levels_q_one_extend_witness :
    (create_levels quant0 tick0 [⟨false, [-3, 5]⟩] none 1).map
      (fun r => r.2.2.1) = some "neither" := by
  have h : create_levels quant0 tick0 [⟨false, [-3, 5]⟩] none 1 =
      some ([-2, -1, 0, 1, 2], [-2, -1, 1, 2], "neither", 0) := by decide
  rw [h]
  exact congrArg some
    (create_levels_q_one_extend quant0 tick0 ⟨false, [-3, 5]⟩ [] none _ rfl h)

/-- C10: the boolean short-circuit of `create_levels` inspects only the
dtype of the first field: with a boolean first field the fixed
[0, 1/2, 1] branch is taken regardless of the remaining fields, and with a
non-boolean first field the result is that of the non-boolean path
`create_levels_nonbool`, regardless of the remaining fields. -/
theorem create_levels_first_dtype_dispatch (quant : List FieldData → ℚ → ℚ × ℚ)
    (tick : Nat → Bool → ℚ → ℚ → List ℚ) (f0 : FieldData)
    (rest : List FieldData) (levels : Option (Nat ⊕ List ℚ)) (q : ℚ) :
    (f0.isBool = true →
      create_levels quant tick (f0 :: rest) levels q =
        some ([0, 1/2, 1], [0, 1/2, 1], "neither", 1)) ∧
    (f0.isBool = false →
      create_levels quant tick (f0 :: rest) levels q =
        create_levels_nonbool quant tick (f0 :: rest) levels q) := by
  constructor <;> intro h <;> simp [create_levels, h]

/-- Witness for the C10 theorem: a boolean-first list with a continuous
second field takes the fixed branch, and a continuous-first list with a
boolean second field takes the non-boolean path. -/
theorem create_levels_first_dtype_dispatch_witness :
    create_levels quant0 tick0 [⟨true, [0]⟩, ⟨false, [3]⟩] none 7 =
      some ([0, 1/2, 1], [0, 1/2, 1], "neither", 1) ∧
    create_levels quant0 tick0 [⟨false, [3]⟩, ⟨true, [0]⟩] none 7 =
      create_levels_nonbool quant0 tick0 [⟨false, [3]⟩, ⟨true, [0]⟩]
        none 7 :=
  ⟨(create_levels_first_dtype_dispatch quant0 tick0 ⟨true, [0]⟩ [⟨false, [3]⟩]
      none 7).1 rfl,
   (create_levels_first_dtype_dispatch quant0 tick0 ⟨false, [3]⟩ [⟨true, [0]⟩]
      none 7).2 rfl⟩

/-- C3: whenever `create_levels` infers the symmetric direction for
non-boolean input (with an explicit level sequence or with generated
levels alike), the returned fill-level sequence is the full sequence with
its middle element (the one at index length / 2) removed, hence exactly
one element shorter. -/
theorem create_levels_symmetric_fill (quant : List FieldData → ℚ → ℚ × ℚ)
    (tick : Nat → Bool → ℚ → ℚ → List ℚ) (f0 : FieldData)
    (rest : List FieldData) (levels : Option (Nat ⊕ List ℚ)) (q : ℚ)
    (lc lcf : List ℚ) (e : String) (d : Int)
    (hb : f0.isBool = false)
    (hd : infer_direction (f0 :: rest) = 0)
    (h : create_levels quant tick (f0 :: rest) levels q =
      some (lc, lcf, e, d)) :
    lcf.length + 1 = lc.length ∧ lcf = lc.eraseIdx (lc.length / 2) := by
  have h' : create_levels_nonbool quant tick (f0 :: rest) levels q =
      some (lc, lcf, e, d) := by
    rw [← h]
    simp [create_levels, hb]
  obtain ⟨-, -, h3, -⟩ :=
    create_levels_nonbool_spec quant tick _ levels q _ h'
  obtain ⟨hne, heq⟩ := h3 hd
  dsimp only at hne heq
  refine ⟨?_, heq⟩
  have hlt : lc.length / 2 < lc.length :=
    Nat.div_lt_self (Nat.pos_of_ne_zero hne) one_lt_two
  rw [heq]
  exact List.length_eraseIdx_add_one hlt

/-- Witness for the C3 theorem: an explicit 3-element level sequence on a
mixed-sign field loses its middle element in the fill sequence. -/
theorem create_levels_symmetric_fill_witness :
    (([10, 30] : List ℚ).length + 1 = ([10, 20, 30] : List ℚ).length ∧
      ([10, 30] : List ℚ) =
        ([10, 20, 30] : List ℚ).eraseIdx (([10, 20, 30] : List ℚ).length / 2)) :=
  create_levels_symmetric_fill quant0 tick0 ⟨false, [-3, 5]⟩ []
    (some (Sum.inr [10, 20, 30])) 0 [10, 20, 30] [10, 30] "both" 0
    rfl (by decide) (by decide)

-- Length and pointwise lemmas for the slice-assignment model.
theorem length_setAlphaSlice (cl : List RGBA) (lo hi : Int) (v : ℚ) :
    (setAlphaSlice cl lo hi v).length = cl.length := by
  unfold setAlphaSlice
  rw [List.length_zipWith, List.length_range, Nat.min_self]

theorem length_linspace01 (n : Nat) : (linspace01 n).length = n := by
  unfold linspace01
  split
  · simp
  · rw [List.length_map, List.length_range]

theorem alphaAt_setAlphaSlice (cl : List RGBA) (lo hi : Int) (v : ℚ)
    (i : Nat) (h2 : i < (setAlphaSlice cl lo hi v).length) :
    alphaAt (setAlphaSlice cl lo hi v) i =
      some ((if pyBound cl.length lo ≤ i ∧ i < pyBound cl.length hi then v
        else (cl.get ⟨i, by rw [← length_setAlphaSlice cl lo hi v]; exact h2⟩).a)) := by
  unfold alphaAt
  rw [List.getElem?_eq_getElem h2]
  simp only [Option.map_some', setAlphaSlice, List.getElem_zipWith,
    List.getElem_range, List.get_eq_getElem]
  split <;> rfl

theorem a_get_setAlphaSlice (cl : List RGBA) (lo hi : Int) (v : ℚ) (i : Nat)
    (h : i < cl.length) (h2 : i < (setAlphaSlice cl lo hi v).length) :
    ((setAlphaSlice cl lo hi v).get ⟨i, h2⟩).a =
      if pyBound cl.length lo ≤ i ∧ i < pyBound cl.length hi then v
      else (cl.get ⟨i, h⟩).a := by
  simp only [setAlphaSlice, List.get_eq_getElem, List.getElem_zipWith,
    List.getElem_range]
  split <;> rfl

theorem alphaAt_two_slices (cl : List RGBA) (lo1 hi1 lo2 hi2 : Int)
    (v1 v2 : ℚ) (i : Nat) (h : i < cl.length) :
    alphaAt (setAlphaSlice (setAlphaSlice cl lo1 hi1 v1) lo2 hi2 v2) i =
      some (if pyBound cl.length lo2 ≤ i ∧ i < pyBound cl.length hi2 then v2
        else if pyBound cl.length lo1 ≤ i ∧ i < pyBound cl.length hi1 then v1
        else (cl.get ⟨i, h⟩).a) := by
  have h1 : i < (setAlphaSlice cl lo1 hi1 v1).length := by
    rw [length_setAlphaSlice]
    exact h
  have h2' : i < (setAlphaSlice (setAlphaSlice cl lo1 hi1 v1)
      lo2 hi2 v2).length := by
    rw [length_setAlphaSlice, length_setAlphaSlice]
    exact h
  rw [alphaAt_setAlphaSlice _ _ _ _ i h2']
  rw [a_get_setAlphaSlice cl lo1 hi1 v1 i h h1]
  simp only [length_setAlphaSlice]

theorem alphaAt_three_slices (cl : List RGBA) (lo1 hi1 lo2 hi2 lo3 hi3 : Int)
    (v1 v2 v3 : ℚ) (i : Nat) (h : i < cl.length) :
    alphaAt (setAlphaSlice (setAlphaSlice (setAlphaSlice cl lo1 hi1 v1)
        lo2 hi2 v2) lo3 hi3 v3) i =
      some (if pyBound cl.length lo3 ≤ i ∧ i < pyBound cl.length hi3 then v3
        else if pyBound cl.length lo2 ≤ i ∧ i < pyBound cl.length hi2 then v2
        else if pyBound cl.length lo1 ≤ i ∧ i < pyBound cl.length hi1 then v1
        else (cl.get ⟨i, h⟩).a) := by
  have h1 : i < (setAlphaSlice cl lo1 hi1 v1).length := by
    rw [length_setAlphaSlice]
    exact h
  have h2' : i < (setAlphaSlice (setAlphaSlice cl lo1 hi1 v1)
      lo2 hi2 v2).length := by
    rw [length_setAlphaSlice, length_setAlphaSlice]
    exact h
  have h3' : i < (setAlphaSlice (setAlphaSlice (setAlphaSlice cl lo1 hi1 v1)
      lo2 hi2 v2) lo3 hi3 v3).length := by
    rw [length_setAlphaSlice, length_setAlphaSlice, length_setAlphaSlice]
    exact h
  rw [alphaAt_setAlphaSlice _ _ _ _ i h3']
  rw [a_get_setAlphaSlice (setAlphaSlice cl lo1 hi1 v1) lo2 hi2 v2 i h1 h2']
  rw [a_get_setAlphaSlice cl lo1 hi1 v1 i h h1]
  simp only [length_setAlphaSlice]

theorem pyBound_nat (len k : Nat) (h : k ≤ len) :
    pyBound len (k : Int) = k := by
  unfold pyBound
  rw [if_neg (by omega : ¬((k : Int) < 0))]
  omega

theorem pyBound_zero (len : Nat) : pyBound len 0 = 0 := by
  unfold pyBound
  rw [if_neg (by omega : ¬((0 : Int) < 0))]
  omega

theorem pyBound_neg (len k : Nat) (h1 : 1 ≤ k) (h2 : k ≤ len) :
    pyBound len (-(k : Int)) = len - k := by
  unfold pyBound
  rw [if_pos (by omega : -(k : Int) < 0)]
  omega

theorem pyBound_nonneg (len : Nat) (x : Int) (h0 : 0 ≤ x)
    (h : x ≤ (len : Int)) : pyBound len x = x.toNat := by
  unfold pyBound
  rw [if_neg (by omega : ¬(x < 0))]
  omega

-- Reduction of `make_transparent` at each concrete direction value.
theorem make_transparent_one_eq (cmap : Cmap) (nl n : Nat) (ao : ℚ) :
    make_transparent cmap (some nl) ao n 1 =
      setAlphaSlice (setAlphaSlice ((linspace01 nl).map cmap.sample) 0 n 0)
        n ((setAlphaSlice ((linspace01 nl).map cmap.sample) 0 n 0).length) ao :=
  rfl

theorem make_transparent_negone_eq (cmap : Cmap) (nl n : Nat) (ao : ℚ) :
    make_transparent cmap (some nl) ao n (-1) =
      setAlphaSlice (setAlphaSlice ((linspace01 nl).map cmap.sample)
        (-(n : Int)) (((linspace01 nl).map cmap.sample).length) 0)
        0 (-(n : Int)) ao :=
  rfl

theorem make_transparent_zero_eq (cmap : Cmap) (nl n : Nat) (ao : ℚ) :
    make_transparent cmap (some nl) ao n 0 =
      setAlphaSlice (setAlphaSlice
        (setAlphaSlice ((linspace01 (nl + 1)).map cmap.sample)
          (((nl + 1) / 2 : Nat) - (n : Int) + 1) (((nl + 1) / 2 : Nat) + n) 0)
        (((nl + 1) / 2 : Nat) + n)
        ((setAlphaSlice ((linspace01 (nl + 1)).map cmap.sample)
          (((nl + 1) / 2 : Nat) - (n : Int) + 1) (((nl + 1) / 2 : Nat) + n) 0).length)
        ao)
      0 (((nl + 1) / 2 : Nat) - (n : Int) + 1) ao :=
  rfl

theorem mt_alpha_one (cmap : Cmap) (nl n : Nat) (ao : ℚ) (h2 : n ≤ nl)
    (i : Nat) (hi : i < nl) :
    alphaAt (make_transparent cmap (some nl) ao n 1) i =
      some (if i < n then 0 else ao) := by
  have hM : ((linspace01 nl).map cmap.sample).length = nl := by
    rw [List.length_map, length_linspace01]
  rw [make_transparent_one_eq]
  rw [alphaAt_two_slices _ _ _ _ _ _ _ i (by rw [hM]; exact hi)]
  rw [length_setAlphaSlice]
  have en : pyBound ((linspace01 nl).map cmap.sample).length (n : Int) = n := by
    rw [hM]
    exact pyBound_nat nl n h2
  have enl : pyBound ((linspace01 nl).map cmap.sample).length
      (((linspace01 nl).map cmap.sample).length : Int) =
      ((linspace01 nl).map cmap.sample).length :=
    pyBound_nat _ _ le_rfl
  rw [en, enl, pyBound_zero]
  split_ifs <;> first | rfl | omega

theorem mt_alpha_negone (cmap : Cmap) (nl n : Nat) (ao : ℚ)
    (h1 : 1 ≤ n) (h2 : n ≤ nl) (i : Nat) (hi : i < nl) :
    alphaAt (make_transparent cmap (some nl) ao n (-1)) i =
      some (if nl - n ≤ i then 0 else ao) := by
  have hM : ((linspace01 nl).map cmap.sample).length = nl := by
    rw [List.length_map, length_linspace01]
  rw [make_transparent_negone_eq]
  rw [alphaAt_two_slices _ _ _ _ _ _ _ i (by rw [hM]; exact hi)]
  have en : pyBound ((linspace01 nl).map cmap.sample).length (-(n : Int)) =
      nl - n := by
    rw [hM]
    exact pyBound_neg nl n h1 h2
  have enl : pyBound ((linspace01 nl).map cmap.sample).length
      (((linspace01 nl).map cmap.sample).length : Int) =
      ((linspace01 nl).map cmap.sample).length :=
    pyBound_nat _ _ le_rfl
  rw [en, enl, pyBound_zero]
  split_ifs <;> first | rfl | omega

theorem mt_alpha_zero (cmap : Cmap) (nl n : Nat) (ao : ℚ)
    (h1 : 1 ≤ n) (hc : n ≤ nl / 2 + 1) (i : Nat) (hi : i < nl + 1) :
    alphaAt (make_transparent cmap (some nl) ao n 0) i =
      some (if (nl + 1) / 2 + 1 - n ≤ i ∧ i < (nl + 1) / 2 + n
        then 0 else ao) := by
  have hM : ((linspace01 (nl + 1)).map cmap.sample).length = nl + 1 := by
    rw [List.length_map, length_linspace01]
  rw [make_transparent_zero_eq]
  rw [alphaAt_three_slices _ _ _ _ _ _ _ _ _ _ i (by rw [hM]; exact hi)]
  rw [length_setAlphaSlice]
  have p1l : pyBound ((linspace01 (nl + 1)).map cmap.sample).length
      ((((nl + 1) / 2 : Nat) : Int) - (n : Int) + 1) = (nl + 1) / 2 + 1 - n := by
    rw [hM, pyBound_nonneg _ _ (by omega) (by omega)]
    omega
  have p1h : pyBound ((linspace01 (nl + 1)).map cmap.sample).length
      ((((nl + 1) / 2 : Nat) : Int) + (n : Int)) = (nl + 1) / 2 + n := by
    rw [hM, pyBound_nonneg _ _ (by omega) (by omega)]
    omega
  have p2h : pyBound ((linspace01 (nl + 1)).map cmap.sample).length
      (((linspace01 (nl + 1)).map cmap.sample).length : Int) =
      ((linspace01 (nl + 1)).map cmap.sample).length :=
    pyBound_nat _ _ le_rfl
  rw [p1l, p1h, p2h, pyBound_zero]
  split_ifs <;> first | rfl | omega

theorem length_make_transparent_one (cmap : Cmap) (nl n : Nat) (ao : ℚ) :
    (make_transparent cmap (some nl) ao n 1).length = nl := by
  rw [make_transparent_one_eq, length_setAlphaSlice, length_setAlphaSlice,
    List.length_map, length_linspace01]

theorem length_make_transparent_negone (cmap : Cmap) (nl n : Nat) (ao : ℚ) :
    (make_transparent cmap (some nl) ao n (-1)).length = nl := by
  rw [make_transparent_negone_eq, length_setAlphaSlice, length_setAlphaSlice,
    List.length_map, length_linspace01]

theorem length_make_transparent_zero (cmap : Cmap) (nl n : Nat) (ao : ℚ) :
    (make_transparent cmap (some nl) ao n 0).length = nl + 1 := by
  rw [make_transparent_zero_eq, length_setAlphaSlice, length_setAlphaSlice,
    length_setAlphaSlice, List.length_map, length_linspace01]

/-- C2 counterexample: with a 5-entry colormap sampled at nlev = 4,
n_transparent = 2, alpha_others = 1 and direction 0, `make_transparent`
zeroes the alpha of three entries, not of n_transparent = 2 entries. -/
theorem make_transparent_center_count_cex :
    ((make_transparent ⟨5, fun _ => ⟨0, 0, 0, 1⟩⟩ (some 4) 1 2 0).countP
      (fun c => c.a == 0)) = 3 ∧ (3 : Nat) ≠ 2 := by
  constructor
  · decide
  · decide

/-- C2 (amended): for every colormap, nlev ≥ 1, 1 ≤ n_transparent ≤ nlev
and alpha_others, the output colormap has nlev entries (nlev + 1 when
direction = 0); for direction 1 exactly the lowest n_transparent entries
have zero alpha, for direction -1 exactly the highest n_transparent, and
for direction 0 — provided n_transparent ≤ nlev / 2 + 1, so that the band
fits — the 2 * n_transparent - 1 entries nearest the center (indices
midpoint + 1 - n_transparent through midpoint + n_transparent - 1 with
midpoint = (nlev + 1) / 2), not n_transparent of them; every other entry
has alpha alpha_others. -/
theorem make_transparent_alpha_pattern (cmap : Cmap) (nl n : Nat) (ao : ℚ)
    (h1 : 1 ≤ n) (h2 : n ≤ nl) :
    ((make_transparent cmap (some nl) ao n 1).length = nl ∧
      ∀ i, i < nl → alphaAt (make_transparent cmap (some nl) ao n 1) i =
        some (if i < n then 0 else ao)) ∧
    ((make_transparent cmap (some nl) ao n (-1)).length = nl ∧
      ∀ i, i < nl → alphaAt (make_transparent cmap (some nl) ao n (-1)) i =
        some (if nl - n ≤ i then 0 else ao)) ∧
    ((make_transparent cmap (some nl) ao n 0).length = nl + 1 ∧
      (n ≤ nl / 2 + 1 → ∀ i, i < nl + 1 →
        alphaAt (make_transparent cmap (some nl) ao n 0) i =
          some (if (nl + 1) / 2 + 1 - n ≤ i ∧ i < (nl + 1) / 2 + n
            then 0 else ao))) := by
  refine ⟨⟨length_make_transparent_one cmap nl n ao, ?_⟩,
    ⟨length_make_transparent_negone cmap nl n ao, ?_⟩,
    ⟨length_make_transparent_zero cmap nl n ao, ?_⟩⟩
  · intro i hi
    exact mt_alpha_one cmap nl n ao h2 i hi
  · intro i hi
    exact mt_alpha_negone cmap nl n ao h1 h2 i hi
  · intro hc i hi
    exact mt_alpha_zero cmap nl n ao h1 hc i hi

/-- Witness for the amended C2 theorem: a concrete colormap at nlev = 4,
n_transparent = 2, alpha_others = 1, checked at one transparent position
per direction. -/
theorem make_transparent_alpha_pattern_witness :
    alphaAt (make_transparent ⟨5, fun _ => ⟨0, 0, 0, 1⟩⟩ (some 4) 1 2 1) 0 =
      some 0 ∧
    alphaAt (make_transparent ⟨5, fun _ => ⟨0, 0, 0, 1⟩⟩ (some 4) 1 2 0) 2 =
      some 0 := by
  constructor
  · have h := ((make_transparent_alpha_pattern ⟨5, fun _ => ⟨0, 0, 0, 1⟩⟩ 4 2 1
      (by decide) (by decide)).1).2 0 (by decide)
    simpa using h
  · have h := (((make_transparent_alpha_pattern ⟨5, fun _ => ⟨0, 0, 0, 1⟩⟩ 4 2 1
      (by decide) (by decide)).2).2).2 (by decide) 2 (by decide)
    simpa using h

-- Helper lemmas for flatMap blocks of constant length.
theorem length_flatMap_const {α β : Type} (l : List α) (F : α → List β)
    (c : Nat) (hF : ∀ a, (F a).length = c) :
    (l.flatMap F).length = c * l.length := by
  induction l with
  | nil => simp
  | cons a t ih =>
    rw [List.flatMap_cons, List.length_append, hF, ih, List.length_cons]
    ring

theorem getElem?_flatMap_const {α β : Type} (l : List α) (F : α → List β)
    (c : Nat) (hF : ∀ a, (F a).length = c) (j k : Nat)
    (hj : j < l.length) (hk : k < c) :
    (l.flatMap F)[c * j + k]? = (F (l.get ⟨j, hj⟩))[k]? := by
  induction l generalizing j with
  | nil => exact absurd hj (Nat.not_lt_zero j)
  | cons a t ih =>
    cases j with
    | zero =>
      rw [List.flatMap_cons,
        List.getElem?_append_left (by rw [hF]; omega : c * 0 + k < (F a).length)]
      have hz : c * 0 + k = k := by omega
      rw [hz]
      rfl
    | succ j' =>
      rw [List.flatMap_cons,
        List.getElem?_append_right (by rw [hF]; nlinarith [Nat.zero_le (c * j')] :
          (F a).length ≤ c * (j' + 1) + k)]
      have hs : c * (j' + 1) + k - (F a).length = c * j' + k := by
        rw [hF]
        ring_nf
        omega
      rw [hs, ih j' (by simpa using hj)]
      rfl

theorem ptOff_zero (dx dy : ℚ) (c : ℚ × ℚ) : ptOff dx dy c (0, 0) = c := by
  unfold ptOff
  simp

-- The tiled cloud written out: original points first, then one block of
-- nine replicas per original point, labels alike.
theorem cluster_tile_eq (nrow : Nat) (coords : List (ℚ × ℚ))
    (labs : List Int) (hn : nrow < coords.length) (h2 : 2 < coords.length) :
    cluster_tile nrow coords labs = some
      (coords ++ (coords.zip labs).flatMap (fun p =>
        sgns.map (ptOff ((coords.get ⟨nrow, hn⟩).1 -
            (coords.get ⟨0, by omega⟩).1)
          (((coords.get ⟨2, h2⟩).2 - (coords.get ⟨0, by omega⟩).2) / 2) p.1)),
      labs ++ (coords.zip labs).flatMap (fun p => List.replicate 9 p.2)) := by
  have h0 : 0 < coords.length := by omega
  unfold cluster_tile
  rw [List.getElem?_eq_getElem hn, List.getElem?_eq_getElem h0,
    List.getElem?_eq_getElem h2]
  rfl

theorem tile_block_coord (coords : List (ℚ × ℚ)) (labs : List Int)
    (dx dy : ℚ) (hlen : labs.length = coords.length) (j : Nat)
    (hj : j < coords.length) (k : Nat) (hk : k < 9) :
    (coords ++ (coords.zip labs).flatMap (fun p =>
        sgns.map (ptOff dx dy p.1)))[coords.length + (9 * j + k)]? =
      some (ptOff dx dy (coords.get ⟨j, hj⟩) (sgns.get ⟨k, hk⟩)) := by
  rw [List.getElem?_append_right (by omega)]
  have hs : coords.length + (9 * j + k) - coords.length = 9 * j + k := by
    omega
  rw [hs]
  have hj' : j < (coords.zip labs).length := by
    rw [List.length_zip, hlen, Nat.min_self]
    exact hj
  rw [getElem?_flatMap_const (coords.zip labs)
    (fun p => sgns.map (ptOff dx dy p.1)) 9 (fun p => rfl) j k hj' hk]
  rw [List.getElem?_map]
  have hk' : k < sgns.length := hk
  rw [List.getElem?_eq_getElem hk']
  have hz : ((coords.zip labs).get ⟨j, hj'⟩).1 = coords.get ⟨j, hj⟩ := by
    simp [List.get_eq_getElem, List.getElem_zip]
  rw [Option.map_some', hz]
  rfl

theorem tile_block_lab (coords : List (ℚ × ℚ)) (labs : List Int)
    (hlen : labs.length = coords.length) (j : Nat)
    (hj : j < coords.length) (k : Nat) (hk : k < 9) :
    (labs ++ (coords.zip labs).flatMap (fun p =>
        List.replicate 9 p.2))[coords.length + (9 * j + k)]? = labs[j]? := by
  rw [List.getElem?_append_right (by omega)]
  have hs : coords.length + (9 * j + k) - labs.length = 9 * j + k := by
    omega
  rw [hs]
  have hj' : j < (coords.zip labs).length := by
    rw [List.length_zip, hlen, Nat.min_self]
    exact hj
  rw [getElem?_flatMap_const (coords.zip labs)
    (fun p => List.replicate 9 p.2) 9 (fun p => rfl) j k hj' hk]
  have hkr : k < (List.replicate 9 ((coords.zip labs).get ⟨j, hj'⟩).2).length := by
    simpa using hk
  rw [List.getElem?_eq_getElem hkr, List.getElem_replicate]
  have hjl : j < labs.length := by omega
  rw [List.getElem?_eq_getElem hjl]
  have hz : ((coords.zip labs).get ⟨j, hj'⟩).2 = labs.get ⟨j, hjl⟩ := by
    simp [List.get_eq_getElem, List.getElem_zip]
  rw [hz]
  rfl

/-- C4 counterexample: on three panel points the tiled cloud has
3 + 9 * 3 = 30 entries, not the 9 * 3 = 27 that one original plus exactly
8 replicas per point would give; moreover the first replica offset is
dy / 2.01, not the half-spacing dy / 2. -/
theorem cluster_tile_replica_cex :
    ((cluster_tile 1 [(0, 0), (0, 1), (0, 2)] [1, 2, 3]).map
      (fun r => r.1.length)) = some 30 ∧
    (30 : Nat) ≠ 9 * 3 ∧
    ((cluster_tile 1 [(0, 0), (0, 1), (0, 2)] [1, 2, 3]).map
      (fun r => r.1[3]?)) =
      some (some (ptOff (0 - 0) ((2 - 0) / 2) (0, 0) (-1, -1))) ∧
    ptOff (0 - 0) ((2 - 0) / 2) (0, 0) (-1, -1) ≠ ((0 : ℚ), -(1 / 2 : ℚ)) := by
  refine ⟨by decide, by decide, by rfl, ?_⟩
  unfold ptOff
  intro h
  have h2 := congrArg Prod.snd h
  norm_num at h2

/-- C4 (amended): the coordinate cloud interpolated by `cluster_on_fig`
is the original panel points followed, for each original point, by nine
replicas — one per sign pair of product([-1,0,1], [-1,0,1]), the zero
pair duplicating the point itself — at offsets of dx / 2.01 and
dy / 2.01 (just under half the panel spacing), each replica carrying the
label of its original point. -/
theorem cluster_tile_structure (nrow : Nat) (coords : List (ℚ × ℚ))
    (labs : List Int) (hlen : labs.length = coords.length)
    (hn : nrow < coords.length) (h2 : 2 < coords.length) :
    ∃ tc tl, cluster_tile nrow coords labs = some (tc, tl) ∧
      tc.length = 10 * coords.length ∧
      tl.length = 10 * coords.length ∧
      (∀ j (hj : j < coords.length) (k : Nat) (hk : k < 9),
        tc[coords.length + (9 * j + k)]? =
          some (ptOff
            ((coords.get ⟨nrow, hn⟩).1 - (coords.get ⟨0, by omega⟩).1)
            (((coords.get ⟨2, h2⟩).2 - (coords.get ⟨0, by omega⟩).2) / 2)
            (coords.get ⟨j, hj⟩) (sgns.get ⟨k, hk⟩)) ∧
        tl[coords.length + (9 * j + k)]? = labs[j]?) ∧
      (∀ j (hj : j < coords.length),
        tc[coords.length + (9 * j + 4)]? = some (coords.get ⟨j, hj⟩)) := by
  have h0 : 0 < coords.length := by omega
  refine ⟨_, _, cluster_tile_eq nrow coords labs hn h2, ?_, ?_, ?_, ?_⟩
  · rw [List.length_append, length_flatMap_const (coords.zip labs)
      (fun p => sgns.map (ptOff
        ((coords.get ⟨nrow, hn⟩).1 - (coords.get ⟨0, h0⟩).1)
        (((coords.get ⟨2, h2⟩).2 - (coords.get ⟨0, h0⟩).2) / 2) p.1))
      9 (fun p => rfl), List.length_zip, hlen, Nat.min_self]
    ring
  · rw [List.length_append, length_flatMap_const (coords.zip labs)
      (fun p => List.replicate 9 p.2) 9 (fun p => rfl),
      List.length_zip, hlen, Nat.min_self]
    ring
  · intro j hj k hk
    exact ⟨tile_block_coord coords labs _ _ hlen j hj k hk,
      tile_block_lab coords labs hlen j hj k hk⟩
  · intro j hj
    rw [tile_block_coord coords labs _ _ hlen j hj 4 (by omega)]
    rw [show sgns.get ⟨4, by decide⟩ = ((0 : ℚ), (0 : ℚ)) from rfl]
    rw [ptOff_zero]

/-- Witness for the amended C4 theorem at three concrete panel points:
the cloud size is 10 * 3 and the first replica block starts with the
(-1, -1) offset of the first point while its fifth entry duplicates the
first point. -/
theorem cluster_tile_structure_witness :
    ((cluster_tile 1 [(0, 0), (0, 1), (0, 2)] [1, 2, 3]).map
      (fun r => r.1.length)) = some 30 ∧
    ((cluster_tile 1 [(0, 0), (0, 1), (0, 2)] [1, 2, 3]).map
      (fun r => r.1[3 + (9 * 0 + 4)]?)) = some (some (0, 0)) ∧
    ((cluster_tile 1 [(0, 0), (0, 1), (0, 2)] [1, 2, 3]).map
      (fun r => r.2[3 + (9 * 0 + 0)]?)) = some (some 1) := by
  obtain ⟨tc, tl, he, hl1, hl2, hrep, hself⟩ :=
    cluster_tile_structure 1 [(0, 0), (0, 1), (0, 2)] [1, 2, 3]
      rfl (by decide) (by decide)
  rw [he]
  refine ⟨?_, ?_, ?_⟩
  · rw [Option.map_some', hl1]
    rfl
  · rw [Option.map_some']
    exact congrArg some (hself 0 (by decide))
  · rw [Option.map_some']
    exact congrArg some (hrep 0 (by decide) 0 (by decide)).2

/-- C6: every patch of `cluster_on_fig` for label 0 is the filled
background region (black face color at alpha 0.2, no edge, no line
style), and every patch for a nonzero label has no fill and a colored
edge, with solid line style when the label is non-negative and dashed
when it is negative. -/
theorem cluster_patch_style_spec {γ : Type} (lab : Int) (col : γ) :
    (lab = 0 → cluster_patch_style lab col =
      ⟨"none", "black", 1/5, EdgeSpec.noEdge, 6⟩) ∧
    (lab ≠ 0 →
      (cluster_patch_style lab col).fc = "none" ∧
      (cluster_patch_style lab col).alpha = 1 ∧
      (cluster_patch_style lab col).ec = EdgeSpec.colored col ∧
      (0 ≤ lab → (cluster_patch_style lab col).ls = "solid") ∧
      (lab < 0 → (cluster_patch_style lab col).ls = "dashed")) := by
  constructor
  · intro h
    simp [cluster_patch_style, h]
  · intro h
    refine ⟨by simp [cluster_patch_style, h], by simp [cluster_patch_style, h],
      by simp [cluster_patch_style, h], ?_, ?_⟩
    · intro hle
      simp [cluster_patch_style, h, hle]
    · intro hlt
      simp [cluster_patch_style, h, show ¬(0 ≤ lab) by omega]

/-- Witness for the C6 theorem at labels 0, -2 and 3 with a concrete
edge color. -/
theorem cluster_patch_style_spec_witness :
    cluster_patch_style (0 : Int) (42 : ℚ) =
      ⟨"none", "black", 1/5, EdgeSpec.noEdge, 6⟩ ∧
    (cluster_patch_style (-2 : Int) (42 : ℚ)).ls = "dashed" ∧
    (cluster_patch_style (3 : Int) (42 : ℚ)).ls = "solid" :=
  ⟨(cluster_patch_style_spec 0 42).1 rfl,
   ((cluster_patch_style_spec (-2) 42).2 (by decide)).2.2.2.2 (by decide),
   ((cluster_patch_style_spec 3 42).2 (by decide)).2.2.2.1 (by decide)⟩

/-- C7: a mask column with no set members makes both `add_stippling` and
`add_any_contour_from_mask` substitute an all-zero placeholder of the
spatial shape of the data (with a single leading time slice in the
stippling case) instead of selecting an empty subset; the builders are
total, so the empty group raises nothing. -/
theorem empty_group_placeholder (da : List (List ℚ))
    (mask : List (List Bool)) (j : Nat) (hj : j < mask.transpose.length)
    (hz : (mask.transpose.get ⟨j, hj⟩).countP (fun b => b) = 0) :
    (stippling_to_test da mask)[j]? =
      some [List.replicate (da.headD []).length 0] ∧
    (contour_to_plot da mask)[j]? =
      some (List.replicate (da.headD []).length 0) := by
  have hm : mask.transpose[j]? = some (mask.transpose.get ⟨j, hj⟩) := by
    rw [List.getElem?_eq_getElem hj]
    rfl
  constructor
  · unfold stippling_to_test
    rw [List.getElem?_map, hm, Option.map_some']
    simp only [hz]
    simp
  · unfold contour_to_plot
    rw [List.getElem?_map, hm, Option.map_some']
    simp only [hz]
    simp

/-- Witness for the C7 theorem: a two-group mask whose first column is
all false yields the zero placeholder for group 0. -/
theorem empty_group_placeholder_witness :
    (stippling_to_test [[1, 2], [3, 4]] [[false, true], [false, true]])[0]? =
      some [[0, 0]] ∧
    (contour_to_plot [[1, 2], [3, 4]] [[false, true], [false, true]])[0]? =
      some [0, 0] := by
  have h := empty_group_placeholder [[1, 2], [3, 4]]
    [[false, true], [false, true]] 0 (by decide) (by decide)
  simpa using h

-- If a pattern occurs inside a list, it still occurs after extending the
-- list on the left.
theorem hasInfChars_append_left (sub l2 l1 : List Char)
    (h : hasInfChars sub l2 = true) :
    hasInfChars sub (l1 ++ l2) = true := by
  induction l1 with
  | nil => simpa using h
  | cons a l ih =>
    simp only [List.cons_append, hasInfChars, Bool.or_eq_true]
    exact Or.inr ih

/-- C8: calling `add_any_contour_from_mask` with a type other than
"contourf", "contour" or "both" yields the invalid-argument error, whose
message names all three allowed values, and no drawing path is taken. -/
theorem bad_contour_type_rejected (da : List (List ℚ))
    (mask : List (List Bool)) (t : String)
    (h1 : t ≠ "contourf") (h2 : t ≠ "contour") (h3 : t ≠ "both") :
    add_any_contour_from_mask da mask t = Except.error (wrongTypeMsg t) ∧
    hasInfChars "contourf".data (wrongTypeMsg t).data = true ∧
    hasInfChars "contour".data (wrongTypeMsg t).data = true ∧
    hasInfChars "both".data (wrongTypeMsg t).data = true ∧
    (∀ r, add_any_contour_from_mask da mask t ≠ Except.ok r) := by
  have he : add_any_contour_from_mask da mask t =
      Except.error (wrongTypeMsg t) := by
    unfold add_any_contour_from_mask
    rw [if_neg h1, if_neg h2, if_neg h3]
  have hd : (wrongTypeMsg t).data =
      ("Wrong type=".data ++ [Char.ofNat 39] ++ t.data ++ [Char.ofNat 39]) ++
        ", choose among \"contourf\", \"contour\" or \"both\"".data := by
    show ("Wrong type=".data ++ [Char.ofNat 39] ++ t.data ++ [Char.ofNat 39]) ++
        ", choose among \"contourf\", \"contour\" or \"both\"".data = _
    simp [List.append_assoc]
  refine ⟨he, ?_, ?_, ?_, fun r hr => ?_⟩
  · rw [hd]
    exact hasInfChars_append_left _ _ _ (by decide)
  · rw [hd]
    exact hasInfChars_append_left _ _ _ (by decide)
  · rw [hd]
    exact hasInfChars_append_left _ _ _ (by decide)
  · rw [he] at hr
    exact Except.noConfusion hr

/-- Witness for the C8 theorem at the concrete bad selector "fancy". -/
theorem bad_contour_type_rejected_witness :
    add_any_contour_from_mask [] [] "fancy" =
      Except.error (wrongTypeMsg "fancy") ∧
    hasInfChars "contourf".data (wrongTypeMsg "fancy").data = true :=
  ⟨(bad_contour_type_rejected [] [] "fancy" (by decide) (by decide)
      (by decide)).1,
   (bad_contour_type_rejected [] [] "fancy" (by decide) (by decide)
      (by decide)).2.1⟩
